import Mathlib

/-
Shallow embedding of src/advanced-vector/vector.h: the RawMemory arena, the
Vector sequence container and the Optional wrapper, together with proofs of
the specification claims.

Modelling conventions:
* An arena is a List (Option A); none is an uninitialized slot, some x a live
  constructed value.  The list length is the arena capacity (RawMemory holds
  raw storage only, so a fresh arena is all none).
* Undefined behaviour (destroying a dead slot, constructing over a live slot
  in violation of the uninitialized-storage precondition of the std
  uninitialized_* algorithms, reading an uninitialized slot, indexing out of
  bounds) makes an operation return Option.none at the outer level.
* A C++ exception thrown by an element operation is Except.error; its payload
  is the observable state of the container at the throw point, after the
  stack unwinding of the locals of the operation (so a new arena held in a
  local RawMemory is discarded and the member fields keep their values).
* Element construction from an argument pack is a parameter mk : Option A
  (none means that construction throws); the element transfer chosen by the
  move-vs-copy trait test in Reserve/Emplace and the element copy constructor
  are parameters tr cp : A -> Option A.  A move transfer is modelled as
  copying the value: the moved-from source is destroyed immediately
  afterwards in every path of the source.
* size_t arithmetic is Nat.  The two spots where the source can wrap at small
  reachable values, namely Size() - new_size inside Resize and the
  static_cast to int inside the copy assignment, carry an explicit
  mod 2 ^ 64 / mod 2 ^ 32.
-/

namespace AdvancedVector

variable {α β : Type}

/-- Number of values of size_t. -/
def W64 : Nat := 2 ^ 64

/-- Number of values of a 32 bit int. -/
def W32 : Nat := 2 ^ 32

/-- Model of a static_cast to int applied to a size_t value (a twos-complement
32 bit int). -/
def castInt32 (x : Nat) : Int :=
  if x % W32 < 2 ^ 31 then ((x % W32 : Nat) : Int) else ((x % W32 : Nat) : Int) - (W32 : Int)

/-- The expression std abs of static_cast int of (r - s) from the copy
assignment, where r and s are size_t values. -/
def sizeDelta (r s : Nat) : Nat := (castInt32 ((r + W64 - s) % W64)).natAbs

/-- Reading slot i (dereferencing buffer + i): undefined behaviour if out of
bounds or the slot is uninitialized. -/
def readAt (l : List (Option α)) (i : Nat) : Option α :=
  match l.get? i with
  | some (some x) => some x
  | _ => none

/-- Placement new into slot i: the std uninitialized algorithms require the
target storage to be uninitialized, so a live slot is a contract violation. -/
def constructAt (l : List (Option α)) (i : Nat) (x : α) : Option (List (Option α)) :=
  match l.get? i with
  | some none => some (l.set i (some x))
  | _ => none

/-- Copy or move assignment into slot i: the target must be a live value. -/
def assignAt (l : List (Option α)) (i : Nat) (x : α) : Option (List (Option α)) :=
  match l.get? i with
  | some (some _) => some (l.set i (some x))
  | _ => none

/-- Destructor call on slot i: the slot must hold a live value. -/
def destroyAt (l : List (Option α)) (i : Nat) : Option (List (Option α)) :=
  match l.get? i with
  | some (some _) => some (l.set i none)
  | _ => none

/-- RawMemory allocation: n slots of raw storage. -/
def allocate (n : Nat) : List (Option α) := List.replicate n none

/-- The std uninitialized copy / uninitialized move algorithms: n elements
from src at offset s into dst at offset d, each element going through f (the
element copy constructor, or the move constructor modelled as a copy).  When
f throws, the algorithm destroys the elements it already constructed and
rethrows, so every caller discards the destination buffer on error. -/
def uninitializedTransferN (src : List (Option α)) (s : Nat) (dst : List (Option α)) (d : Nat)
    (f : α → Option α) : Nat → Option (Except Unit (List (Option α)))
  | 0 => some (Except.ok dst)
  | Nat.succ m =>
    match readAt src s with
    | none => none
    | some x =>
      match f x with
      | none => some (Except.error ())
      | some y =>
        match constructAt dst d y with
        | none => none
        | some dst2 => uninitializedTransferN src (s + 1) dst2 (d + 1) f m

/-- Helper for destroyN: destroy n slots starting at s, one by one. -/
def destroyNAux (l : List (Option α)) (s : Nat) : Nat → Option (List (Option α))
  | 0 => some l
  | Nat.succ m =>
    match destroyAt l s with
    | none => none
    | some l2 => destroyNAux l2 (s + 1) m

/-- The std destroy_n algorithm; destroying any slot outside the arena is
undefined behaviour, which the explicit bounds test captures. -/
def destroyN (l : List (Option α)) (s n : Nat) : Option (List (Option α)) :=
  if l.length < s + n then none else destroyNAux l s n

/-- The std copy_n algorithm: element-wise copy assignment from src offset s
into live dst slots at offset d. -/
def copyN (src : List (Option α)) (s : Nat) (dst : List (Option α)) (d : Nat) :
    Nat → Option (List (Option α))
  | 0 => some dst
  | Nat.succ m =>
    match readAt src s with
    | none => none
    | some x =>
      match assignAt dst d x with
      | none => none
      | some dst2 => copyN src (s + 1) dst2 (d + 1) m

/-- The std uninitialized_value_construct_n algorithm: default values into
uninitialized slots starting at s. -/
def uninitializedValueConstructN [Inhabited α] (l : List (Option α)) (s : Nat) :
    Nat → Option (List (Option α))
  | 0 => some l
  | Nat.succ m =>
    match constructAt l s (default : α) with
    | none => none
    | some l2 => uninitializedValueConstructN l2 (s + 1) m

/-- The std move_backward algorithm writing slots last, last - 1, ... each
from the slot one to its left; the fuel argument is the element count. -/
def moveBackwardAux (l : List (Option α)) (last : Nat) : Nat → Option (List (Option α))
  | 0 => some l
  | Nat.succ m =>
    match readAt l (last - 1) with
    | none => none
    | some x =>
      match assignAt l last x with
      | none => none
      | some l2 => moveBackwardAux l2 (last - 1) m

/-- The std move algorithm used by Erase: slot d gets the value of slot d + 1,
then d + 1 gets d + 2, and so on; the fuel argument is the element count. -/
def moveForwardAux (l : List (Option α)) (d : Nat) : Nat → Option (List (Option α))
  | 0 => some l
  | Nat.succ m =>
    match readAt l (d + 1) with
    | none => none
    | some x =>
      match assignAt l d x with
      | none => none
      | some l2 => moveForwardAux l2 (d + 1) m

/-- Applying a fallible element operation to every element in order, stopping
at the first failure. -/
def mapOpt (f : α → Option β) : List α → Option (List β)
  | [] => some []
  | a :: t =>
    match f a with
    | none => none
    | some b =>
      match mapOpt f t with
      | none => none
      | some bs => some (b :: bs)

/-- The Vector state: the arena slots (data_, whose length is the capacity of
the owned RawMemory) and the logical length size_. -/
structure Vector (α : Type) where
  data : List (Option α)
  size : Nat
deriving DecidableEq

/-- Vector::Capacity. -/
def Vector.Capacity (v : Vector α) : Nat := v.data.length

/-- The canonical well formed state: the values xs live in the first slots,
followed by slack uninitialized slots. -/
def mkVec (xs : List α) (slack : Nat) : Vector α :=
  ⟨xs.map some ++ List.replicate slack none, xs.length⟩

/-- The container invariant of the specification: size is at most capacity,
slots below size are live, slots from size on are uninitialized. -/
def Vector.Inv (v : Vector α) : Prop :=
  v.size ≤ v.Capacity ∧
    ∀ i, i < v.Capacity →
      (i < v.size → ∃ x, v.data.get? i = some (some x)) ∧
      (v.size ≤ i → v.data.get? i = some none)

/-- Vector::Reserve.  tr is the element transfer selected by the
is_nothrow_move_constructible / is_copy_constructible trait test; a throwing
transfer (possible only on the copy path) makes uninitialized_copy_n unwind
its constructions inside the new arena, the local RawMemory releases the raw
block, and the member fields are untouched. -/
def Vector.Reserve (v : Vector α) (newCapacity : Nat) (tr : α → Option α) :
    Option (Except (Vector α) (Vector α)) :=
  if newCapacity > v.Capacity then
    match uninitializedTransferN v.data 0 (allocate newCapacity) 0 tr v.size with
    | none => none
    | some (Except.error _) => some (Except.error v)
    | some (Except.ok nd) =>
      match destroyN v.data 0 v.size with
      | none => none
      | some _ => some (Except.ok ⟨nd, v.size⟩)
  else some (Except.ok v)

/-- Vector::Resize, translated faithfully from the source: the branch test is
new_size > Capacity(), the grow branch value-constructs new_size - Size()
slots starting at begin(), and the other branch destroys Size() - new_size
slots (a size_t subtraction) starting at begin() + new_size. -/
def Vector.Resize [Inhabited α] (v : Vector α) (newSize : Nat) (tr : α → Option α) :
    Option (Except (Vector α) (Vector α)) :=
  if newSize > v.Capacity then
    match v.Reserve newSize tr with
    | none => none
    | some (Except.error u) => some (Except.error u)
    | some (Except.ok v1) =>
      match uninitializedValueConstructN v1.data 0 (newSize - v1.size) with
      | none => none
      | some d => some (Except.ok ⟨d, newSize⟩)
  else
    match destroyN v.data newSize ((v.size + W64 - newSize) % W64) with
    | none => none
    | some d => some (Except.ok ⟨d, newSize⟩)

/-- Vector::EmplaceBack.  mk is the element construction from the argument
pack (none when that construction throws).  In the full branch the new
element is constructed into its final slot of the new arena before any
transfer; if mk throws there, the local arena is discarded and the members
are untouched. -/
def Vector.EmplaceBack (v : Vector α) (mk : Option α) (tr : α → Option α) :
    Option (Except (Vector α) (Vector α)) :=
  if v.size = v.Capacity then
    match mk with
    | none => some (Except.error v)
    | some x =>
      match constructAt (allocate (if v.size = 0 then 1 else 2 * v.size)) v.size x with
      | none => none
      | some nd =>
        match uninitializedTransferN v.data 0 nd 0 tr v.size with
        | none => none
        | some (Except.error _) => some (Except.error v)
        | some (Except.ok nd2) =>
          match destroyN v.data 0 v.size with
          | none => none
          | some _ => some (Except.ok ⟨nd2, v.size + 1⟩)
  else
    match mk with
    | none => some (Except.error v)
    | some x =>
      match constructAt v.data v.size x with
      | none => none
      | some d => some (Except.ok ⟨d, v.size + 1⟩)

/-- Vector::PushBack forwards to EmplaceBack; the copy or move of the argument
into the new slot is modelled as the already produced value. -/
def Vector.PushBack (v : Vector α) (x : α) (tr : α → Option α) :
    Option (Except (Vector α) (Vector α)) :=
  v.EmplaceBack (some x) tr

/-- Vector::PopBack: size_ is decremented (a size_t decrement) and the slot at
the new end is destroyed. -/
def Vector.PopBack (v : Vector α) : Option (Vector α) :=
  match destroyAt v.data ((v.size + W64 - 1) % W64) with
  | none => none
  | some d => some ⟨d, (v.size + W64 - 1) % W64⟩

/-- Vector::Emplace at position pos.  In the full branch the new element goes
directly into slot pos of the new arena, then the prefix and the suffix are
transferred around it with the catch blocks of the source: on a throw the new
arena contents constructed so far are destroyed, the local RawMemory releases
the block and the members are untouched.  In the non-full branch a temporary
is built first, the last element is move-constructed into the end slot, the
range shifts right and the temporary is move-assigned into pos. -/
def Vector.Emplace (v : Vector α) (pos : Nat) (mk : Option α) (tr : α → Option α) :
    Option (Except (Vector α) (Vector α)) :=
  if v.size = v.Capacity then
    match mk with
    | none => some (Except.error v)
    | some x =>
      match constructAt (allocate (if v.size = 0 then 1 else 2 * v.size)) pos x with
      | none => none
      | some nd =>
        match uninitializedTransferN v.data 0 nd 0 tr pos with
        | none => none
        | some (Except.error _) => some (Except.error v)
        | some (Except.ok nd2) =>
          match uninitializedTransferN v.data pos nd2 (pos + 1) tr (v.size - pos) with
          | none => none
          | some (Except.error _) => some (Except.error v)
          | some (Except.ok nd3) =>
            match destroyN v.data 0 v.size with
            | none => none
            | some _ => some (Except.ok ⟨nd3, v.size + 1⟩)
  else
    if pos ≠ v.size then
      match mk with
      | none => some (Except.error v)
      | some temp =>
        match readAt v.data (v.size - 1) with
        | none => none
        | some last =>
          match constructAt v.data v.size last with
          | none => none
          | some d =>
            match moveBackwardAux d (v.size - 1) ((v.size - 1) - pos) with
            | none => none
            | some d2 =>
              match assignAt d2 pos temp with
              | none => none
              | some d3 => some (Except.ok ⟨d3, v.size + 1⟩)
    else
      match mk with
      | none => some (Except.error v)
      | some x =>
        match constructAt v.data v.size x with
        | none => none
        | some d => some (Except.ok ⟨d, v.size + 1⟩)

/-- Vector::Erase: shift the elements after pos one slot left by move
assignment, decrement size_ (a size_t decrement) and destroy the vacated
slot. -/
def Vector.Erase (v : Vector α) (pos : Nat) : Option (Vector α) :=
  match moveForwardAux v.data pos (v.size - (pos + 1)) with
  | none => none
  | some d =>
    match destroyAt d ((v.size + W64 - 1) % W64) with
    | none => none
    | some d2 => some ⟨d2, (v.size + W64 - 1) % W64⟩

/-- The Vector copy constructor: an arena of exactly rhs.size slots, each
element copy-constructed through cp. -/
def Vector.copyCtor (rhs : Vector α) (cp : α → Option α) :
    Option (Except Unit (Vector α)) :=
  match uninitializedTransferN rhs.data 0 (allocate rhs.size) 0 cp rhs.size with
  | none => none
  | some (Except.error e) => some (Except.error e)
  | some (Except.ok d) => some (Except.ok ⟨d, rhs.size⟩)

/-- Vector copy assignment.  same models the address test this != &rhs.  cp is
the element copy constructor.  The element copy assignments of the
overlapping prefix (std copy_n) are modelled as non-throwing; only the copy
constructions are fallible, which is what the claims exercise.  The source of
the tail copy in the rhs-not-shorter branch is begin() + Size() of this, as
in the source. -/
def Vector.opAssignCopy (v rhs : Vector α) (same : Bool) (cp : α → Option α) :
    Option (Except (Vector α) (Vector α)) :=
  if same then some (Except.ok v)
  else
    if rhs.size > v.Capacity then
      match rhs.copyCtor cp with
      | none => none
      | some (Except.error _) => some (Except.error v)
      | some (Except.ok tmp) => some (Except.ok tmp)
    else
      let delta := sizeDelta rhs.size v.size
      if rhs.size < v.size then
        match copyN rhs.data 0 v.data 0 rhs.size with
        | none => none
        | some d =>
          match destroyN d rhs.size delta with
          | none => none
          | some d2 => some (Except.ok ⟨d2, rhs.size⟩)
      else
        match copyN rhs.data 0 v.data 0 v.size with
        | none => none
        | some d =>
          match uninitializedTransferN d v.size d v.size cp delta with
          | none => none
          | some (Except.error _) => some (Except.error ⟨d, v.size⟩)
          | some (Except.ok d2) => some (Except.ok ⟨d2, rhs.size⟩)

/-- Vector move assignment: exchanges into this and leaves rhs default; same
models the address test this != &rhs, under which nothing happens.  The
result is the pair (this, rhs) afterwards. -/
def Vector.opAssignMove (v rhs : Vector α) (same : Bool) : Vector α × Vector α :=
  if same then (v, rhs) else (rhs, ⟨[], 0⟩)

/-- Vector move constructor: the new object steals the arena and size and the
source is left default constructed.  The result is the pair (new, source). -/
def Vector.moveCtor (other : Vector α) : Vector α × Vector α :=
  (other, ⟨[], 0⟩)

/-- Repeated PushBack of zeros starting from a default constructed vector. -/
def pushN : Nat → Option (Vector Nat)
  | 0 => some ⟨[], 0⟩
  | Nat.succ n =>
    match pushN n with
    | none => none
    | some v =>
      match v.PushBack 0 some with
      | some (Except.ok w) => some w
      | _ => none

/-- The what() message of BadOptionalAccess. -/
def badOptionalAccessMessage : String := "Bad optional access"

/-- The Optional state: the inline storage slot (data_, none when it holds no
constructed value) and the presence flag. -/
structure Optional (α : Type) where
  data : Option α
  flag : Bool
deriving DecidableEq

/-- Optional::HasValue. -/
def Optional.HasValue (o : Optional α) : Bool := o.flag

/-- A default constructed Optional. -/
def Optional.empty : Optional α := ⟨none, false⟩

/-- The flag-storage consistency that every reachable Optional satisfies. -/
def Optional.WF (o : Optional α) : Prop := o.flag = o.data.isSome

/-- Optional::Value: throws BadOptionalAccess when disengaged, otherwise
dereferences the storage. -/
def Optional.Value (o : Optional α) : Option (Except String α) :=
  if !o.HasValue then some (Except.error badOptionalAccessMessage)
  else
    match o.data with
    | some x => some (Except.ok x)
    | none => none

/-- Optional::Reset: destroy the held value if present and clear the flag. -/
def Optional.Reset (o : Optional α) : Option (Optional α) :=
  if o.HasValue then
    match o.data with
    | some _ => some ⟨none, false⟩
    | none => none
  else some o

/-- Optional::Emplace: Reset, then construct from the argument pack (mk, none
when the construction throws), then set the flag.  On a throw the flag was
already cleared by Reset and is never set, so the error payload is the
disengaged state. -/
def Optional.Emplace (o : Optional α) (mk : Option α) :
    Option (Except (Optional α) (Optional α)) :=
  match o.Reset with
  | none => none
  | some o2 =>
    match mk with
    | none => some (Except.error o2)
    | some x => some (Except.ok ⟨some x, true⟩)

/-- Optional move constructor: engages the new object from the moved source
value when the source is engaged; the source flag is never modified, only its
held value is moved from (modelled as retained).  The result is the pair
(new, source afterwards). -/
def Optional.moveCtor (other : Optional α) : Option (Optional α × Optional α) :=
  if other.HasValue then
    match other.data with
    | some x => some (⟨some x, true⟩, other)
    | none => none
  else some (⟨none, false⟩, other)

/-- Optional move assignment: the three engaged cases of the source; the rhs
flag is never cleared.  The result is the pair (this, rhs) afterwards. -/
def Optional.opAssignMove (t rhs : Optional α) : Option (Optional α × Optional α) :=
  if !rhs.HasValue then
    match t.Reset with
    | none => none
    | some t2 => some (t2, rhs)
  else
    match rhs.data with
    | none => none
    | some x =>
      if t.HasValue then
        match t.data with
        | some _ => some (⟨some x, true⟩, rhs)
        | none => none
      else some (⟨some x, true⟩, rhs)

/-
Basic list-manipulation lemmas for slots addressed as prefix-length offsets.
-/

lemma get?_append_len (p : List β) (z : β) (t : List β) :
    (p ++ z :: t).get? p.length = some z := by
  induction p with
  | nil => rfl
  | cons a p ih => exact ih

lemma set_append_len (p : List β) (z w : β) (t : List β) :
    (p ++ z :: t).set p.length w = p ++ w :: t := by
  induction p with
  | nil => rfl
  | cons a p ih => exact congrArg (List.cons a) ih

lemma readAt_at (p t : List (Option α)) (x : α) (i : Nat) (hi : i = p.length) :
    readAt (p ++ some x :: t) i = some x := by
  subst hi
  unfold readAt
  rw [get?_append_len]

lemma constructAt_at (p t : List (Option α)) (x : α) (i : Nat) (hi : i = p.length) :
    constructAt (p ++ none :: t) i x = some (p ++ some x :: t) := by
  subst hi
  unfold constructAt
  rw [get?_append_len, set_append_len]

lemma assignAt_at (p t : List (Option α)) (y x : α) (i : Nat) (hi : i = p.length) :
    assignAt (p ++ some y :: t) i x = some (p ++ some x :: t) := by
  subst hi
  unfold assignAt
  rw [get?_append_len, set_append_len]

lemma destroyAt_at (p t : List (Option α)) (y : α) (i : Nat) (hi : i = p.length) :
    destroyAt (p ++ some y :: t) i = some (p ++ none :: t) := by
  subst hi
  unfold destroyAt
  rw [get?_append_len, set_append_len]

lemma replicate_split (m c : Nat) (h : m < c) :
    List.replicate c (none : Option α)
      = List.replicate m none ++ none :: List.replicate (c - m - 1) none := by
  have hc : c = m + ((c - m - 1) + 1) := by omega
  conv_lhs => rw [hc]
  rw [List.replicate_add, List.replicate_succ]

/-
Length preservation of the primitive slot operations.
-/

lemma constructAt_length {l l2 : List (Option α)} {i : Nat} {x : α}
    (h : constructAt l i x = some l2) : l2.length = l.length := by
  unfold constructAt at h
  split at h
  · cases h; simp
  · cases h

lemma assignAt_length {l l2 : List (Option α)} {i : Nat} {x : α}
    (h : assignAt l i x = some l2) : l2.length = l.length := by
  unfold assignAt at h
  split at h
  · cases h; simp
  · cases h

lemma destroyAt_length {l l2 : List (Option α)} {i : Nat}
    (h : destroyAt l i = some l2) : l2.length = l.length := by
  unfold destroyAt at h
  split at h
  · cases h; simp
  · cases h

lemma uninitializedTransferN_length :
    ∀ (n : Nat) (src : List (Option α)) (s : Nat) (dst : List (Option α)) (d : Nat)
      (f : α → Option α) (res : List (Option α)),
      uninitializedTransferN src s dst d f n = some (Except.ok res) → res.length = dst.length := by
  intro n
  induction n with
  | zero =>
    intro src s dst d f res h
    unfold uninitializedTransferN at h
    cases h
    rfl
  | succ m ih =>
    intro src s dst d f res h
    unfold uninitializedTransferN at h
    split at h
    · cases h
    split at h
    · cases h
    split at h
    · cases h
    case _ y hy dst2 hdst2 =>
      rw [ih src (s + 1) dst2 (d + 1) f res h, constructAt_length hdst2]

lemma destroyNAux_length :
    ∀ (n : Nat) (l : List (Option α)) (s : Nat) (res : List (Option α)),
      destroyNAux l s n = some res → res.length = l.length := by
  intro n
  induction n with
  | zero =>
    intro l s res h
    unfold destroyNAux at h
    cases h
    rfl
  | succ m ih =>
    intro l s res h
    unfold destroyNAux at h
    split at h
    · cases h
    case _ l2 hl2 =>
      rw [ih l2 (s + 1) res h, destroyAt_length hl2]

lemma destroyN_length {l res : List (Option α)} {s n : Nat}
    (h : destroyN l s n = some res) : res.length = l.length := by
  unfold destroyN at h
  split at h
  · cases h
  · exact destroyNAux_length n l s res h

lemma uninitializedValueConstructN_length [Inhabited α] :
    ∀ (n : Nat) (l : List (Option α)) (s : Nat) (res : List (Option α)),
      uninitializedValueConstructN l s n = some res → res.length = l.length := by
  intro n
  induction n with
  | zero =>
    intro l s res h
    unfold uninitializedValueConstructN at h
    cases h
    rfl
  | succ m ih =>
    intro l s res h
    unfold uninitializedValueConstructN at h
    split at h
    · cases h
    case _ l2 hl2 =>
      rw [ih l2 (s + 1) res h, constructAt_length hl2]

lemma copyN_length :
    ∀ (n : Nat) (src : List (Option α)) (s : Nat) (dst : List (Option α)) (d : Nat)
      (res : List (Option α)),
      copyN src s dst d n = some res → res.length = dst.length := by
  intro n
  induction n with
  | zero =>
    intro src s dst d res h
    unfold copyN at h
    cases h
    rfl
  | succ m ih =>
    intro src s dst d res h
    unfold copyN at h
    split at h
    · cases h
    split at h
    · cases h
    case _ x hx dst2 hdst2 =>
      rw [ih src (s + 1) dst2 (d + 1) res h, assignAt_length hdst2]

lemma moveBackwardAux_length :
    ∀ (n : Nat) (l : List (Option α)) (last : Nat) (res : List (Option α)),
      moveBackwardAux l last n = some res → res.length = l.length := by
  intro n
  induction n with
  | zero =>
    intro l last res h
    unfold moveBackwardAux at h
    cases h
    rfl
  | succ m ih =>
    intro l last res h
    unfold moveBackwardAux at h
    split at h
    · cases h
    split at h
    · cases h
    case _ x hx l2 hl2 =>
      rw [ih l2 (last - 1) res h, assignAt_length hl2]

lemma moveForwardAux_length :
    ∀ (n : Nat) (l : List (Option α)) (d : Nat) (res : List (Option α)),
      moveForwardAux l d n = some res → res.length = l.length := by
  intro n
  induction n with
  | zero =>
    intro l d res h
    unfold moveForwardAux at h
    cases h
    rfl
  | succ m ih =>
    intro l d res h
    unfold moveForwardAux at h
    split at h
    · cases h
    split at h
    · cases h
    case _ x hx l2 hl2 =>
      rw [ih l2 (d + 1) res h, assignAt_length hl2]

/-
Lemmas about mapOpt.
-/

lemma mapOpt_some (l : List α) : mapOpt some l = some l := by
  induction l with
  | nil => rfl
  | cons a t ih => simp [mapOpt, ih]

lemma mapOpt_length {f : α → Option β} :
    ∀ {l : List α} {l2 : List β}, mapOpt f l = some l2 → l2.length = l.length := by
  intro l
  induction l with
  | nil =>
    intro l2 h
    cases h
    rfl
  | cons a t ih =>
    intro l2 h
    unfold mapOpt at h
    split at h
    · cases h
    split at h
    · cases h
    case _ b hb bs hbs =>
      cases h
      simp [ih hbs]

/-
Computation of the range primitives on canonically shaped arenas.
-/

lemma uninitializedTransferN_spec (f : α → Option α) :
    ∀ (ys : List α) (p dp q ds src dst : List (Option α)) (s d n : Nat),
      src = p ++ ys.map some ++ q → s = p.length →
      dst = dp ++ List.replicate ys.length none ++ ds → d = dp.length → n = ys.length →
      uninitializedTransferN src s dst d f n
        = match mapOpt f ys with
          | some zs => some (Except.ok (dp ++ zs.map some ++ ds))
          | none => some (Except.error ()) := by
  intro ys
  induction ys with
  | nil =>
    intro p dp q ds src dst s d n hsrc hs hdst hd hn
    subst hsrc hs hdst hd hn
    simp only [List.length_nil]
    unfold uninitializedTransferN
    simp [mapOpt]
  | cons y t ih =>
    intro p dp q ds src dst s d n hsrc hs hdst hd hn
    subst hsrc hs hdst hd hn
    have h1 : readAt (p ++ some y :: (t.map some ++ q)) p.length = some y :=
      readAt_at p (t.map some ++ q) y p.length rfl
    simp only [List.length_cons]
    unfold uninitializedTransferN
    cases hf : f y with
    | none =>
      simp [h1, hf, mapOpt, List.replicate_succ]
    | some z =>
      have h2 : constructAt (dp ++ none :: (List.replicate t.length none ++ ds)) dp.length z
          = some (dp ++ some z :: (List.replicate t.length none ++ ds)) :=
        constructAt_at dp (List.replicate t.length none ++ ds) z dp.length rfl
      have h3 := ih (p ++ [some y]) (dp ++ [some z]) q ds
        (p ++ some y :: (t.map some ++ q)) (dp ++ some z :: (List.replicate t.length none ++ ds))
        (p.length + 1) (dp.length + 1) t.length (by simp) (by simp) (by simp) (by simp) rfl
      simp [h1, hf, h2, h3, mapOpt, List.replicate_succ]
      cases hm : mapOpt f t with
      | none => simp
      | some zs => simp

lemma destroyNAux_spec :
    ∀ (ys : List α) (p q l : List (Option α)) (s n : Nat),
      l = p ++ ys.map some ++ q → s = p.length → n = ys.length →
      destroyNAux l s n = some (p ++ List.replicate ys.length none ++ q) := by
  intro ys
  induction ys with
  | nil =>
    intro p q l s n hl hs hn
    subst hl hs hn
    simp only [List.length_nil]
    unfold destroyNAux
    simp
  | cons y t ih =>
    intro p q l s n hl hs hn
    subst hl hs hn
    have h1 : destroyAt (p ++ some y :: (t.map some ++ q)) p.length
        = some (p ++ none :: (t.map some ++ q)) :=
      destroyAt_at p (t.map some ++ q) y p.length rfl
    simp only [List.length_cons]
    unfold destroyNAux
    have h2 := ih (p ++ [none]) q (p ++ none :: (t.map some ++ q)) (p.length + 1) t.length
      (by simp) (by simp) rfl
    simp [h1, h2, List.replicate_succ]

lemma destroyN_spec (ys : List α) (p q l : List (Option α)) (s n : Nat)
    (hl : l = p ++ ys.map some ++ q) (hs : s = p.length) (hn : n = ys.length) :
    destroyN l s n = some (p ++ List.replicate ys.length none ++ q) := by
  unfold destroyN
  rw [if_neg]
  · exact destroyNAux_spec ys p q l s n hl hs hn
  · subst hl hs hn
    simp

/-
Capacity behaviour of the container operations.
-/

lemma EmplaceBack_ok_capacity {v w : Vector α} {mk : Option α} {tr : α → Option α}
    (h : v.EmplaceBack mk tr = some (Except.ok w)) :
    w.Capacity
      = if v.size = v.Capacity then (if v.size = 0 then 1 else 2 * v.size) else v.Capacity := by
  unfold Vector.EmplaceBack at h
  split at h
  case isTrue hfull =>
    rw [if_pos hfull]
    split at h
    · cases h
    split at h
    · cases h
    case _ nd hnd =>
      split at h
      · cases h
      · cases h
      case _ nd2 htr2 =>
        split at h
        · cases h
        case _ hdes =>
          cases h
          unfold Vector.Capacity
          rw [uninitializedTransferN_length _ _ _ _ _ _ _ htr2, constructAt_length hnd]
          simp [allocate]
  case isFalse hfull =>
    rw [if_neg hfull]
    split at h
    · cases h
    split at h
    · cases h
    case _ d hd =>
      cases h
      unfold Vector.Capacity
      exact constructAt_length hd

lemma Emplace_ok_capacity {v w : Vector α} {pos : Nat} {mk : Option α} {tr : α → Option α}
    (h : v.Emplace pos mk tr = some (Except.ok w)) :
    w.Capacity
      = if v.size = v.Capacity then (if v.size = 0 then 1 else 2 * v.size) else v.Capacity := by
  unfold Vector.Emplace at h
  split at h
  case isTrue hfull =>
    rw [if_pos hfull]
    split at h
    · cases h
    split at h
    · cases h
    case _ nd hnd =>
      split at h
      · cases h
      · cases h
      case _ nd2 htr2 =>
        split at h
        · cases h
        · cases h
        case _ nd3 htr3 =>
          split at h
          · cases h
          case _ hdes =>
            cases h
            unfold Vector.Capacity
            rw [uninitializedTransferN_length _ _ _ _ _ _ _ htr3,
              uninitializedTransferN_length _ _ _ _ _ _ _ htr2, constructAt_length hnd]
            simp [allocate]
  case isFalse hfull =>
    rw [if_neg hfull]
    split at h
    · split at h
      · cases h
      split at h
      · cases h
      split at h
      · cases h
      case _ d hd =>
        split at h
        · cases h
        case _ d2 hd2 =>
          split at h
          · cases h
          case _ d3 hd3 =>
            cases h
            unfold Vector.Capacity
            rw [assignAt_length hd3, moveBackwardAux_length _ _ _ _ hd2, constructAt_length hd]
    · split at h
      · cases h
      split at h
      · cases h
      case _ d hd =>
        cases h
        unfold Vector.Capacity
        exact constructAt_length hd

lemma Reserve_ok_capacity {v w : Vector α} {c : Nat} {tr : α → Option α}
    (h : v.Reserve c tr = some (Except.ok w)) :
    w.Capacity = max v.Capacity c := by
  unfold Vector.Reserve at h
  split at h
  case isTrue hgt =>
    split at h
    · cases h
    · cases h
    case _ nd htr =>
      split at h
      · cases h
      case _ hdes =>
        cases h
        unfold Vector.Capacity at hgt ⊢
        rw [uninitializedTransferN_length _ _ _ _ _ _ _ htr]
        simp [allocate]
        omega
  case isFalse hle =>
    cases h
    unfold Vector.Capacity at hle ⊢
    omega

lemma Resize_ok_capacity [Inhabited α] {v w : Vector α} {c : Nat} {tr : α → Option α}
    (h : v.Resize c tr = some (Except.ok w)) :
    v.Capacity ≤ w.Capacity := by
  unfold Vector.Resize at h
  split at h
  case isTrue hgt =>
    split at h
    · cases h
    · cases h
    case _ v1 hres =>
      split at h
      · cases h
      case _ d hd =>
        cases h
        have h1 := Reserve_ok_capacity hres
        unfold Vector.Capacity at h1 ⊢
        rw [uninitializedValueConstructN_length _ _ _ _ hd, h1]
        omega
  case isFalse hle =>
    split at h
    · cases h
    case _ d hd =>
      cases h
      unfold Vector.Capacity
      rw [destroyN_length hd]

lemma PopBack_capacity {v w : Vector α} (h : v.PopBack = some w) :
    w.Capacity = v.Capacity := by
  unfold Vector.PopBack at h
  split at h
  · cases h
  case _ d hd =>
    cases h
    unfold Vector.Capacity
    exact destroyAt_length hd

lemma Erase_capacity {v w : Vector α} {pos : Nat} (h : v.Erase pos = some w) :
    w.Capacity = v.Capacity := by
  unfold Vector.Erase at h
  split at h
  · cases h
  case _ d hd =>
    split at h
    · cases h
    case _ d2 hd2 =>
      cases h
      unfold Vector.Capacity
      rw [destroyAt_length hd2, moveForwardAux_length _ _ _ _ hd]

/-
Full computation of EmplaceBack on canonical states, and the capacity sequence
of repeated PushBack.
-/

lemma EmplaceBack_mkVec_nil (x : α) :
    (mkVec ([] : List α) 0).EmplaceBack (some x) some = some (Except.ok (mkVec [x] 0)) := rfl

lemma EmplaceBack_mkVec_full (xs : List α) (x : α) (hne : xs.length ≠ 0) :
    (mkVec xs 0).EmplaceBack (some x) some
      = some (Except.ok (mkVec (xs ++ [x]) (2 * xs.length - (xs.length + 1)))) := by
  have hfull : (mkVec xs 0).size = (mkVec xs 0).Capacity := by
    simp [mkVec, Vector.Capacity]
  have hlt : xs.length < 2 * xs.length := by omega
  have hcon : constructAt (allocate (2 * xs.length)) xs.length x
      = some (List.replicate xs.length none
          ++ some x :: List.replicate (2 * xs.length - xs.length - 1) none) := by
    unfold allocate
    rw [replicate_split xs.length (2 * xs.length) hlt]
    exact constructAt_at _ _ x _ (by simp)
  have htr := uninitializedTransferN_spec (some : α → Option α) xs [] []
    (List.replicate 0 (none : Option α))
    (some x :: List.replicate (2 * xs.length - xs.length - 1) none)
    (xs.map some ++ List.replicate 0 none)
    (List.replicate xs.length none ++ some x :: List.replicate (2 * xs.length - xs.length - 1) none)
    0 0 xs.length (by simp) rfl (by simp) rfl rfl
  simp only [mapOpt_some] at htr
  have hdes := destroyN_spec xs [] (List.replicate 0 (none : Option α))
    (xs.map some ++ List.replicate 0 none) 0 xs.length (by simp) rfl rfl
  simp [Nat.sub_sub] at htr hdes
  have hsz : (mkVec xs 0).size = xs.length := rfl
  have hdata : (mkVec xs 0).data = xs.map some ++ List.replicate 0 none := rfl
  unfold Vector.EmplaceBack
  rw [if_pos hfull, hsz, hdata, if_neg hne]
  simp [hcon, htr, hdes, mkVec, Nat.sub_sub]

lemma EmplaceBack_mkVec_slack (xs : List α) (k : Nat) (x : α) :
    (mkVec xs (k + 1)).EmplaceBack (some x) some = some (Except.ok (mkVec (xs ++ [x]) k)) := by
  have hne : ¬ (mkVec xs (k + 1)).size = (mkVec xs (k + 1)).Capacity := by
    simp [mkVec, Vector.Capacity]
  have hcon : constructAt (xs.map some ++ none :: List.replicate k none) xs.length x
      = some (xs.map some ++ some x :: List.replicate k none) :=
    constructAt_at (xs.map some) (List.replicate k none) x _ (by simp)
  unfold Vector.EmplaceBack
  rw [if_neg hne]
  simp [mkVec, List.replicate_succ, hcon]

lemma pushN_canonical : ∀ n : Nat, ∃ c : Nat,
    pushN n = some (mkVec (List.replicate n (0 : Nat)) (c - n)) ∧ n ≤ c ∧
    (n = 0 → c = 0) ∧ (1 ≤ n → ∃ j : Nat, c = 2 ^ j ∧ 2 ^ j < 2 * n) := by
  intro n
  induction n with
  | zero =>
    refine ⟨0, rfl, Nat.le_refl 0, fun _ => rfl, fun h => absurd h (by omega)⟩
  | succ n ih =>
    obtain ⟨c, hpush, hnc, h0, hpow⟩ := ih
    by_cases hfull : c = n
    · subst hfull
      rcases Nat.eq_zero_or_pos c with hz | hpos
      · subst hz
        refine ⟨1, ?_, by omega, by omega, ?_⟩
        · unfold pushN
          rw [hpush]
          simp [Vector.PushBack, EmplaceBack_mkVec_nil]
        · intro _
          exact ⟨0, rfl, by omega⟩
      · refine ⟨2 * c, ?_, by omega, by omega, ?_⟩
        · unfold pushN
          rw [Nat.sub_self] at hpush
          rw [hpush]
          have hlen : (List.replicate c (0 : Nat)).length ≠ 0 := by simp; omega
          have hemp := EmplaceBack_mkVec_full (List.replicate c 0) 0 hlen
          simp only [List.length_replicate] at hemp
          simp [Vector.PushBack, hemp, List.replicate_succ']
        · intro _
          obtain ⟨j, hj, hjlt⟩ := hpow hpos
          refine ⟨j + 1, ?_, ?_⟩
          · rw [hj, pow_succ, Nat.mul_comm]
          · rw [pow_succ]
            omega
    · have hgt : n < c := by omega
      have hslack : c - n = (c - n - 1) + 1 := by omega
      refine ⟨c, ?_, by omega, by omega, ?_⟩
      · unfold pushN
        rw [hpush, hslack]
        have hemp := EmplaceBack_mkVec_slack (List.replicate n (0 : Nat)) (c - n - 1) 0
        simp [Nat.sub_sub] at hemp
        simp [Vector.PushBack, hemp, List.replicate_succ', Nat.sub_sub]
      · intro _
        have hn1 : 1 ≤ n := by
          rcases Nat.eq_zero_or_pos n with hz | hp
          · subst hz
            have := h0 rfl
            omega
          · exact hp
        obtain ⟨j, hj, hjlt⟩ := hpow hn1
        exact ⟨j, hj, by omega⟩

/-
The canonical states satisfy the container invariant.
-/

lemma get?_replicate_lt (k i : Nat) (a : Option α) (h : i < k) :
    (List.replicate k a).get? i = some a := by
  induction k generalizing i with
  | zero => omega
  | succ m ih =>
    cases i with
    | zero => rfl
    | succ j => exact ih j (by omega)

lemma get?_append_lt (l1 l2 : List β) (i : Nat) (h : i < l1.length) :
    (l1 ++ l2).get? i = l1.get? i := by
  induction l1 generalizing i with
  | nil => simp at h
  | cons a t ih =>
    cases i with
    | zero => rfl
    | succ j => exact ih j (Nat.lt_of_succ_lt_succ h)

lemma get?_append_ge (l1 l2 : List β) (i : Nat) (h : l1.length ≤ i) :
    (l1 ++ l2).get? i = l2.get? (i - l1.length) := by
  induction l1 generalizing i with
  | nil => simp
  | cons a t ih =>
    cases i with
    | zero => simp at h
    | succ j =>
      show (t ++ l2).get? j = l2.get? (j + 1 - (t.length + 1))
      rw [ih j (Nat.le_of_succ_le_succ h)]
      congr 1
      omega

lemma get?_map_some (xs : List α) (i : Nat) :
    (xs.map some).get? i = (xs.get? i).map some := by
  induction xs generalizing i with
  | nil => cases i <;> rfl
  | cons a t ih =>
    cases i with
    | zero => rfl
    | succ j => exact ih j

lemma get?_lt_isSome (xs : List α) (i : Nat) (h : i < xs.length) :
    ∃ x, xs.get? i = some x := by
  induction xs generalizing i with
  | nil => simp at h
  | cons a t ih =>
    cases i with
    | zero => exact ⟨a, rfl⟩
    | succ j => exact ih j (Nat.lt_of_succ_lt_succ h)

lemma Inv_mkVec (xs : List α) (k : Nat) : (mkVec xs k).Inv := by
  refine ⟨by simp [mkVec, Vector.Capacity], ?_⟩
  intro i hi
  constructor
  · intro hlt
    have hx : i < xs.length := hlt
    obtain ⟨x, hx2⟩ := get?_lt_isSome xs i hx
    refine ⟨x, ?_⟩
    show (xs.map some ++ List.replicate k none).get? i = some (some x)
    rw [get?_append_lt _ _ i (by simpa using hx), get?_map_some, hx2]
    rfl
  · intro hge
    have hxs : xs.length ≤ i := hge
    show (xs.map some ++ List.replicate k none).get? i = some none
    rw [get?_append_ge _ _ i (by simpa using hxs)]
    have hik : i - (xs.map some).length < k := by
      have hcap : (mkVec xs k).Capacity = xs.length + k := by
        simp [mkVec, Vector.Capacity]
      rw [hcap] at hi
      simp
      omega
    exact get?_replicate_lt k _ none hik

/-
Helper facts about the Optional state.
-/

lemma Optional.WF_engaged_data {o : Optional α} (h : o.WF) (hv : o.HasValue = true) :
    ∃ x, o.data = some x := by
  unfold Optional.WF at h
  unfold Optional.HasValue at hv
  rw [hv] at h
  cases hd : o.data with
  | none => rw [hd] at h; simp at h
  | some x => exact ⟨x, rfl⟩

/-
The claims.
-/

/-- C1: the claimed Resize behaviour fails on the code.  On the one-element
full vector [0], Resize(2) reserves and then value-constructs starting at
begin() over the live slot 0 (violating the uninitialized-storage
precondition of uninitialized_value_construct_n) while leaving slot 1
untouched, instead of value-constructing the gap [oldSize, newSize).  On the
one-element vector with capacity 2, Resize(2) takes the non-grow branch and
calls destroy_n with the wrapped size_t count Size() - new_size = 2^64 - 1,
destroying far outside the arena, instead of value-constructing slot 1.
Both executions are undefined behaviour, modelled as none. -/
theorem claim1_resize_counterexample :
    Vector.Resize (mkVec ([0] : List Nat) 0) 2 some = none ∧
    Vector.Resize (mkVec ([0] : List Nat) 1) 2 some = none :=
  ⟨rfl, rfl⟩

/-- C2: the claimed copy-assignment behaviour fails on the code when rhs is
longer than this but fits the capacity.  For this = [10] with capacity 2 and
rhs = [20, 30], the tail copy reads from begin() + Size() of this — an
uninitialized slot of this itself — instead of rhs.begin() + Size(), which is undefined
behaviour (modelled as none) instead of producing [20, 30]. -/
theorem claim2_copy_assign_counterexample :
    Vector.opAssignCopy (mkVec ([10] : List Nat) 1) (mkVec [20, 30] 0) false some = none :=
  rfl

/-- C3: the operation-preserves-invariant claim fails on the code because of
the Resize defect: the vector [7] with size = capacity = 1 satisfies the
container invariant, yet Resize(2) value-constructs over the live slot 0 and
never initializes slot 1 although size becomes 2, so no post-state satisfying
the invariant exists (the execution is undefined behaviour, modelled as
none). -/
theorem claim3_invariant_broken_by_resize :
    (mkVec ([7] : List Nat) 0).Inv ∧
    Vector.Resize (mkVec ([7] : List Nat) 0) 2 some = none :=
  ⟨Inv_mkVec [7] 0, rfl⟩

/-- C4: when the vector is full and the construction of the new element into
its final slot of the freshly allocated arena fails, both Emplace and
EmplaceBack discard the new arena and leave the container exactly as it was:
the error payload is the unchanged state. -/
theorem claim4_emplace_strong_guarantee (α : Type) (v : Vector α) (pos : Nat)
    (tr : α → Option α) (h : v.size = v.Capacity) :
    v.Emplace pos none tr = some (Except.error v) ∧
    v.EmplaceBack none tr = some (Except.error v) := by
  constructor
  · unfold Vector.Emplace
    rw [if_pos h]
  · unfold Vector.EmplaceBack
    rw [if_pos h]

theorem claim4_witness :
    (mkVec ([3] : List Nat) 0).size = (mkVec ([3] : List Nat) 0).Capacity ∧
    ((mkVec ([3] : List Nat) 0).Emplace 0 none some
        = some (Except.error (mkVec ([3] : List Nat) 0)) ∧
      (mkVec ([3] : List Nat) 0).EmplaceBack none some
        = some (Except.error (mkVec ([3] : List Nat) 0))) :=
  ⟨rfl, claim4_emplace_strong_guarantee Nat (mkVec [3] 0) 0 some rfl⟩

/-- C5: when rhs.size exceeds the capacity of this, copy assignment builds the full
copy of rhs in a temporary and swaps it in: if every element copy succeeds
the result is exactly the copied rhs in a tight arena, and if any element
copy fails while the temporary is being built, this is returned exactly
unchanged (strong guarantee). -/
theorem claim5_copy_assign_grow_strong_guarantee (α : Type) (v : Vector α) (xs : List α)
    (k : Nat) (cp : α → Option α) (h : xs.length > v.Capacity) :
    (mapOpt cp xs = none → v.opAssignCopy (mkVec xs k) false cp = some (Except.error v)) ∧
    (∀ zs, mapOpt cp xs = some zs →
      v.opAssignCopy (mkVec xs k) false cp = some (Except.ok (mkVec zs 0))) := by
  have hsz : (mkVec xs k).size = xs.length := rfl
  have htr := uninitializedTransferN_spec cp xs [] [] (List.replicate k (none : Option α)) []
    ((mkVec xs k).data) (allocate xs.length) 0 0 xs.length (by simp [mkVec]) rfl
    (by simp [allocate]) rfl rfl
  constructor
  · intro hm
    rw [hm] at htr
    unfold Vector.opAssignCopy Vector.copyCtor
    rw [if_neg (by simp)]
    rw [hsz, if_pos h]
    simp [hsz, htr]
  · intro zs hm
    rw [hm] at htr
    have hlen : zs.length = xs.length := mapOpt_length hm
    simp [mkVec] at htr
    unfold Vector.opAssignCopy Vector.copyCtor
    rw [if_neg (by simp)]
    rw [hsz, if_pos h]
    simp [htr, mkVec, hlen]

theorem claim5_witness :
    (mkVec ([1] : List Nat) 0).size > (mkVec ([] : List Nat) 0).Capacity ∧
    Vector.opAssignCopy (mkVec ([] : List Nat) 0) (mkVec [1] 0) false some
      = some (Except.ok (mkVec [1] 0)) :=
  ⟨by decide,
    (claim5_copy_assign_grow_strong_guarantee Nat (mkVec [] 0) [1] 0 some (by decide)).2
      [1] (mapOpt_some [1])⟩

/-- C6: the growth policy.  An insertion into a non-full vector never changes
the capacity; an insertion into a full vector reallocates to exactly
max 1 (2 * size); starting from an empty vector, after n pushes the capacity
is the least power of two that is at least n (the sequence 1, 2, 4, 8, ...);
and no operation ever shrinks the capacity. -/
theorem claim6_growth_policy (α : Type) [Inhabited α] :
    (∀ (v : Vector α) (mk : Option α) (tr : α → Option α) (w : Vector α),
        v.size < v.Capacity → v.EmplaceBack mk tr = some (Except.ok w) →
          w.Capacity = v.Capacity) ∧
    (∀ (v : Vector α) (mk : Option α) (tr : α → Option α) (w : Vector α),
        v.size = v.Capacity → v.EmplaceBack mk tr = some (Except.ok w) →
          w.Capacity = max 1 (2 * v.size)) ∧
    (∀ (v : Vector α) (pos : Nat) (mk : Option α) (tr : α → Option α) (w : Vector α),
        v.size < v.Capacity → v.Emplace pos mk tr = some (Except.ok w) →
          w.Capacity = v.Capacity) ∧
    (∀ n : Nat, 1 ≤ n → ∃ (w : Vector Nat) (j : Nat),
        pushN n = some w ∧ w.size = n ∧ w.Capacity = 2 ^ j ∧ n ≤ 2 ^ j ∧ 2 ^ j < 2 * n) ∧
    (∀ (v : Vector α) (c : Nat) (tr : α → Option α) (w : Vector α),
        v.Reserve c tr = some (Except.ok w) → v.Capacity ≤ w.Capacity) ∧
    (∀ (v : Vector α) (c : Nat) (tr : α → Option α) (w : Vector α),
        v.Resize c tr = some (Except.ok w) → v.Capacity ≤ w.Capacity) ∧
    (∀ (v : Vector α) (mk : Option α) (tr : α → Option α) (w : Vector α),
        v.EmplaceBack mk tr = some (Except.ok w) → v.Capacity ≤ w.Capacity) ∧
    (∀ (v : Vector α) (pos : Nat) (mk : Option α) (tr : α → Option α) (w : Vector α),
        v.Emplace pos mk tr = some (Except.ok w) → v.Capacity ≤ w.Capacity) ∧
    (∀ v w : Vector α, v.PopBack = some w → w.Capacity = v.Capacity) ∧
    (∀ (v : Vector α) (pos : Nat) (w : Vector α),
        v.Erase pos = some w → w.Capacity = v.Capacity) := by
  refine ⟨?_, ?_, ?_, ?_, ?_, ?_, ?_, ?_, ?_, ?_⟩
  · intro v mk tr w hlt hok
    rw [EmplaceBack_ok_capacity hok, if_neg (by omega)]
  · intro v mk tr w hfull hok
    rw [EmplaceBack_ok_capacity hok, if_pos hfull]
    split <;> omega
  · intro v pos mk tr w hlt hok
    rw [Emplace_ok_capacity hok, if_neg (by omega)]
  · intro n hn
    obtain ⟨c, hpush, hnc, h0, hpow⟩ := pushN_canonical n
    obtain ⟨j, hj, hjlt⟩ := hpow hn
    refine ⟨mkVec (List.replicate n 0) (c - n), j, hpush, by simp [mkVec], ?_, by omega, hjlt⟩
    simp [mkVec, Vector.Capacity]
    omega
  · intro v c tr w hok
    rw [Reserve_ok_capacity hok]
    omega
  · intro v c tr w hok
    exact Resize_ok_capacity hok
  · intro v mk tr w hok
    rw [EmplaceBack_ok_capacity hok]
    split
    case isTrue hf => split <;> omega
    case isFalse hf => omega
  · intro v pos mk tr w hok
    rw [Emplace_ok_capacity hok]
    split
    case isTrue hf => split <;> omega
    case isFalse hf => omega
  · intro v w hok
    exact PopBack_capacity hok
  · intro v pos w hok
    exact Erase_capacity hok

theorem claim6_witness :
    (mkVec ([0] : List Nat) 0).size = (mkVec ([0] : List Nat) 0).Capacity ∧
    (mkVec ([0] : List Nat) 0).EmplaceBack (some 1) some
      = some (Except.ok (mkVec ([0, 1] : List Nat) 0)) ∧
    (mkVec ([0, 1] : List Nat) 0).Capacity = max 1 (2 * (mkVec ([0] : List Nat) 0).size) :=
  ⟨rfl, rfl,
    (claim6_growth_policy Nat).2.1 (mkVec [0] 0) (some 1) some (mkVec [0, 1] 0) rfl rfl⟩

/-- C7: Optional::Emplace first unconditionally destroys any held value
(Reset leaves the disengaged state), then constructs the fresh value and
engages; when the construction fails the flag was already cleared and never
set again, so the optional is left disengaged. -/
theorem claim7_optional_emplace (α : Type) (o : Optional α) (h : o.WF) :
    o.Reset = some (Optional.empty : Optional α) ∧
    (∀ x : α, o.Emplace (some x) = some (Except.ok ⟨some x, true⟩)) ∧
    o.Emplace none = some (Except.error (Optional.empty : Optional α)) ∧
    (Optional.empty : Optional α).HasValue = false := by
  have hreset : o.Reset = some (Optional.empty : Optional α) := by
    obtain ⟨data, flag⟩ := o
    unfold Optional.WF at h
    simp at h
    cases data with
    | none =>
      simp at h
      simp [Optional.Reset, Optional.HasValue, h, Optional.empty]
    | some x =>
      simp at h
      simp [Optional.Reset, Optional.HasValue, h, Optional.empty]
  refine ⟨hreset, ?_, ?_, rfl⟩
  · intro x
    simp [Optional.Emplace, hreset]
  · simp [Optional.Emplace, hreset]

theorem claim7_witness :
    (Optional.mk (some (5 : Nat)) true).WF ∧
    ((Optional.mk (some (5 : Nat)) true).Emplace (some 6)
        = some (Except.ok ⟨some 6, true⟩) ∧
      (Optional.mk (some (5 : Nat)) true).Emplace none
        = some (Except.error (Optional.empty : Optional Nat))) :=
  ⟨rfl,
    (claim7_optional_emplace Nat ⟨some 5, true⟩ rfl).2.1 6,
    (claim7_optional_emplace Nat ⟨some 5, true⟩ rfl).2.2.1⟩

/-- C8: Optional::Value raises the distinct empty-access error, carrying the
fixed BadOptionalAccess message, exactly when the optional is disengaged, and
otherwise returns the held value; HasValue is a total boolean test; a default
constructed Optional has no value and its Value raises that error. -/
theorem claim8_optional_value (α : Type) (o : Optional α) (h : o.WF) :
    ((o.Value = some (Except.error badOptionalAccessMessage)) ↔ o.HasValue = false) ∧
    (o.HasValue = true → ∃ x, o.data = some x ∧ o.Value = some (Except.ok x)) ∧
    (Optional.empty : Optional α).HasValue = false ∧
    (Optional.empty : Optional α).Value = some (Except.error badOptionalAccessMessage) := by
  obtain ⟨data, flag⟩ := o
  unfold Optional.WF at h
  simp at h
  subst h
  cases data with
  | none =>
    refine ⟨?_, ?_, rfl, rfl⟩ <;> simp [Optional.Value, Optional.HasValue]
  | some x =>
    refine ⟨?_, ?_, rfl, rfl⟩ <;> simp [Optional.Value, Optional.HasValue]

theorem claim8_witness :
    (Optional.mk (some (2 : Nat)) true).WF ∧
    (∃ x, (Optional.mk (some (2 : Nat)) true).data = some x ∧
      (Optional.mk (some (2 : Nat)) true).Value = some (Except.ok x)) :=
  ⟨rfl, (claim8_optional_value Nat ⟨some 2, true⟩ rfl).2.1 rfl⟩

/-- C9: self assignment is a no-op for both the copy and the move assignment
operators: the this != &rhs guard short-circuits, leaving size, capacity and
elements untouched. -/
theorem claim9_self_assignment_noop (α : Type) (v : Vector α) (cp : α → Option α) :
    v.opAssignCopy v true cp = some (Except.ok v) ∧ v.opAssignMove v true = (v, v) :=
  ⟨rfl, rfl⟩

/-- C10: moving from an engaged Optional (by move construction or move
assignment) leaves the source still engaged — only its held value is moved
from, the flag is untouched — whereas the Vector move constructor and move
assignment leave the source default constructed (size 0, capacity 0). -/
theorem claim10_optional_move_keeps_source_engaged (α : Type) (o t : Optional α)
    (v w : Vector α) (ho : o.WF) (hov : o.HasValue = true) (ht : t.WF) :
    (∃ x : α, o.data = some x ∧
        o.moveCtor = some (⟨some x, true⟩, o) ∧
        t.opAssignMove o = some (⟨some x, true⟩, o)) ∧
    v.moveCtor = (v, (⟨[], 0⟩ : Vector α)) ∧
    w.opAssignMove v false = (v, (⟨[], 0⟩ : Vector α)) := by
  obtain ⟨x, hd⟩ := Optional.WF_engaged_data ho hov
  refine ⟨⟨x, hd, ?_, ?_⟩, rfl, rfl⟩
  · simp [Optional.moveCtor, hov, hd]
  · by_cases htv : t.HasValue = true
    · obtain ⟨y, hdt⟩ := Optional.WF_engaged_data ht htv
      simp [Optional.opAssignMove, hov, hd, htv, hdt]
    · have htv2 : t.HasValue = false := by simpa using htv
      simp [Optional.opAssignMove, hov, hd, htv2]

theorem claim10_witness :
    ((Optional.mk (some (4 : Nat)) true).WF ∧
      (Optional.mk (some (4 : Nat)) true).HasValue = true ∧
      (Optional.empty : Optional Nat).WF) ∧
    ((∃ x : Nat, (Optional.mk (some (4 : Nat)) true).data = some x ∧
        (Optional.mk (some (4 : Nat)) true).moveCtor
          = some (⟨some x, true⟩, Optional.mk (some 4) true) ∧
        (Optional.empty : Optional Nat).opAssignMove (Optional.mk (some 4) true)
          = some (⟨some x, true⟩, Optional.mk (some 4) true)) ∧
      (mkVec ([1] : List Nat) 0).moveCtor = (mkVec [1] 0, (⟨[], 0⟩ : Vector Nat)) ∧
      (mkVec ([] : List Nat) 0).opAssignMove (mkVec [1] 0) false
        = (mkVec [1] 0, (⟨[], 0⟩ : Vector Nat))) :=
  ⟨⟨rfl, rfl, rfl⟩,
    claim10_optional_move_keeps_source_engaged Nat ⟨some 4, true⟩ Optional.empty
      (mkVec [1] 0) (mkVec [] 0) rfl rfl rfl⟩

end AdvancedVector
